import Mathlib

/-!
Shallow embedding of the `webauthn_verifier` repository
(`verifier/src/lib.rs`, `pass-webauthn/src/runtime_helpers.rs`,
`pass-webauthn/src/lib.rs`, `pass-webauthn/src/runtime_impls/`) and proofs
about its specification claims.

Bytes are `List Nat` (each element intended `< 256`); Rust `&str` values
are `List Char`.  External crates (`p256`, `sha2`) are abstracted as a
bundle of primitives; the `url` crate is modelled concretely for the simple
origin shapes the code consumes.  Everything from the repository itself
(the JSON field scanner, base64url decoding behaviour, the envelope types
and their trait implementations, and the control flow of `webauthn_verify`)
is translated directly from the source.
-/

namespace Webauthn

/-! ## UTF-8 (model of Rust `String::from_utf8` / `str::as_bytes`) -/

/-- Is `b` a UTF-8 continuation byte (`0x80..=0xBF`)? -/
def isCont (b : Nat) : Bool := 0x80 ≤ b && b ≤ 0xBF

/-- Fueled worker for `utf8Decode`.  One unit of fuel is spent per decoded
character; a character consumes at least one byte, so fuel equal to the
byte count never runs out (the `0, _ :: _` clause is unreachable from
`utf8Decode`). -/
def utf8DecodeFuel : Nat → List Nat → Option (List Char)
  | _, [] => some []
  | 0, _ :: _ => none
  | f + 1, b :: bs =>
    if b ≤ 0x7F then
      (utf8DecodeFuel f bs).map (fun cs => Char.ofNat b :: cs)
    else if 0xC2 ≤ b && b ≤ 0xDF then
      match bs with
      | b1 :: bs1 =>
        if isCont b1 then
          (utf8DecodeFuel f bs1).map
            (fun cs => Char.ofNat ((b - 0xC0) * 0x40 + (b1 - 0x80)) :: cs)
        else none
      | [] => none
    else if 0xE0 ≤ b && b ≤ 0xEF then
      match bs with
      | b1 :: b2 :: bs2 =>
        let cp := (b - 0xE0) * 0x1000 + (b1 - 0x80) * 0x40 + (b2 - 0x80)
        if isCont b1 && isCont b2 && 0x800 ≤ cp && !(0xD800 ≤ cp && cp ≤ 0xDFFF) then
          (utf8DecodeFuel f bs2).map (fun cs => Char.ofNat cp :: cs)
        else none
      | _ => none
    else if 0xF0 ≤ b && b ≤ 0xF4 then
      match bs with
      | b1 :: b2 :: b3 :: bs3 =>
        let cp := (b - 0xF0) * 0x40000 + (b1 - 0x80) * 0x1000 +
          (b2 - 0x80) * 0x40 + (b3 - 0x80)
        if isCont b1 && isCont b2 && isCont b3 && 0x10000 ≤ cp && cp ≤ 0x10FFFF then
          (utf8DecodeFuel f bs3).map (fun cs => Char.ofNat cp :: cs)
        else none
      | _ => none
    else none

/-- Strict UTF-8 decoding of a byte list into characters, rejecting
overlong encodings, surrogates and out-of-range code points, exactly as
Rust `String::from_utf8` does. Returns `none` on invalid input. -/
def utf8Decode (l : List Nat) : Option (List Char) := utf8DecodeFuel l.length l

/-- UTF-8 encoding of one character (model of Rust `char` UTF-8 encoding,
as used by `str::as_bytes`). -/
def utf8EncodeChar (c : Char) : List Nat :=
  let n := c.toNat
  if n ≤ 0x7F then [n]
  else if n ≤ 0x7FF then [0xC0 + n / 0x40, 0x80 + n % 0x40]
  else if n ≤ 0xFFFF then [0xE0 + n / 0x1000, 0x80 + n / 0x40 % 0x40, 0x80 + n % 0x40]
  else [0xF0 + n / 0x40000, 0x80 + n / 0x1000 % 0x40, 0x80 + n / 0x40 % 0x40, 0x80 + n % 0x40]

/-- UTF-8 encoding of a character list (model of Rust `str::as_bytes`). -/
def utf8Encode (s : List Char) : List Nat := (s.map utf8EncodeChar).flatten

/-! ## Rust `str` primitives used by the scanner -/

/-- Model of Rust `str::split(",")`: comma-separated segments, empty
segments preserved. -/
def splitOnComma : List Char → List (List Char)
  | [] => [[]]
  | c :: rest =>
    if c = ',' then [] :: splitOnComma rest
    else
      match splitOnComma rest with
      | [] => [[c]]
      | s :: ss => (c :: s) :: ss

/-- Model of Rust `str::split_once(sep)` for a one-character separator:
splits at the first occurrence, which is dropped. -/
def splitOnce (sep : Char) : List Char → Option (List Char × List Char)
  | [] => none
  | c :: rest =>
    if c = sep then some ([], rest)
    else (splitOnce sep rest).map (fun p => (c :: p.1, p.2))

/-- Model of Rust `str::contains(needle)`: substring containment. -/
def containsSubstr (needle : List Char) : List Char → Bool
  | [] => needle.isEmpty
  | c :: rest => needle.isPrefixOf (c :: rest) || containsSubstr needle rest

/-- The character class trimmed by the scanner:
`|c: char| c.eq(&' ') || c.eq(&'"')`. -/
def isTrimChar (c : Char) : Bool := c = ' ' || c = '"'

/-- Model of Rust `str::trim_matches` with `isTrimChar`: removes all
leading and trailing matching characters. -/
def trimValue (s : List Char) : List Char :=
  ((s.dropWhile isTrimChar).reverse.dropWhile isTrimChar).reverse

/-! ## base64url without padding
(model of the `base64` crate engine `BASE64_URL_SAFE_NO_PAD`, which the
scanner uses through `base64::decode_engine`) -/

/-- Sextet value of one ASCII byte in the URL-safe base64 alphabet. -/
def b64ValOfByte (b : Nat) : Option Nat :=
  if 65 ≤ b && b ≤ 90 then some (b - 65)
  else if 97 ≤ b && b ≤ 122 then some (b - 97 + 26)
  else if 48 ≤ b && b ≤ 57 then some (b - 48 + 52)
  else if b = 45 then some 62
  else if b = 95 then some 63
  else none

/-- Reassemble bytes from sextet values: strict unpadded base64, rejecting
a single trailing sextet and non-zero trailing bits (the engine default
`decode_allow_trailing_bits = false`). -/
def b64DecodeVals : List Nat → Option (List Nat)
  | [] => some []
  | [_] => none
  | [a, b] => if b % 16 = 0 then some [a * 4 + b / 16] else none
  | [a, b, c] =>
    if c % 4 = 0 then some [a * 4 + b / 16, b % 16 * 16 + c / 4] else none
  | a :: b :: c :: d :: rest =>
    (b64DecodeVals rest).map
      (fun tl => (a * 4 + b / 16) :: (b % 16 * 16 + c / 4) :: (c % 4 * 64 + d) :: tl)

/-- Fallible map over a list, failing if any element fails. -/
def mapOption {α β : Type} (f : α → Option β) : List α → Option (List β)
  | [] => some []
  | a :: l =>
    match f a with
    | none => none
    | some b => (mapOption f l).map (fun bs => b :: bs)

/-- base64url-without-padding decoding of a byte string. -/
def b64Decode (bs : List Nat) : Option (List Nat) :=
  match mapOption b64ValOfByte bs with
  | none => none
  | some vs => b64DecodeVals vs

/-- Split bytes into sextet values (canonical base64 encoding, zero
trailing bits). -/
def b64EncodeVals : List Nat → List Nat
  | [] => []
  | [a] => [a / 4, a % 4 * 16]
  | [a, b] => [a / 4, a % 4 * 16 + b / 16, b % 16 * 4]
  | a :: b :: c :: rest =>
    (a / 4) :: (a % 4 * 16 + b / 16) :: (b % 16 * 4 + c / 64) :: (c % 64) :: b64EncodeVals rest

/-- Alphabet character for a sextet value (URL-safe alphabet). -/
def b64SextetChar (v : Nat) : Char :=
  if v < 26 then Char.ofNat (65 + v)
  else if v < 52 then Char.ofNat (97 + v - 26)
  else if v < 62 then Char.ofNat (48 + v - 52)
  else if v = 62 then '-'
  else '_'

/-- Canonical base64url-without-padding encoding of a byte string, as a
character list. -/
def b64Encode (bs : List Nat) : List Char := (b64EncodeVals bs).map b64SextetChar

/-! ## SCALE `Decode` through `TrailingZeroInput` for 32-byte identifiers

`Decode::decode(&mut TrailingZeroInput::new(value))` for a `[u8; 32]`
target reads 32 bytes, supplying zeros once the input is exhausted; it
never fails, truncating long inputs and zero-padding short ones. -/

/-- Tolerant fixed-size decode of a byte string into 32 bytes. -/
def decodeFixed32 (v : List Nat) : List Nat := (v ++ List.replicate 32 0).take 32

/-- `Default::default()` for the 32-byte identifier types. -/
def default32 : List Nat := List.replicate 32 0

/-! ## The JSON field scanner (`runtime_helpers.rs`) -/

/-- The `find_map` step of `get_from_json_then_map`:
`json.split(",").find_map(|kv| kv.contains(key).then_some(kv.split_once(":")?.1))`.
Because `then_some`'s argument is evaluated eagerly, a segment without a
colon makes the closure return `None` (continue searching) even when it
contains the key. -/
def scanSegments (key : List Char) : List (List Char) → Option (List Char)
  | [] => none
  | kv :: rest =>
    match splitOnce ':' kv with
    | none => scanSegments key rest
    | some p => if containsSubstr key kv then some p.2 else scanSegments key rest

/-- Embedding of `get_from_json_then_map` specialised (as at its two call
sites) to a 32-byte `Decode` target: UTF-8 decode the bytes, find the
first comma-separated segment containing `key` (and a colon), take what
follows the first colon, trim spaces and quotes, apply `map`, then decode
the result through `TrailingZeroInput` into 32 bytes. -/
def get_from_json_then_map (json : List Nat) (key : List Char)
    (map : List Char → Option (List Nat)) : Option (List Nat) :=
  match utf8Decode json with
  | none => none
  | some s =>
    match scanSegments key (splitOnComma s) with
    | none => none
    | some value =>
      match map (trimValue value) with
      | none => none
      | some decoded => some (decodeFixed32 decoded)

/-- Embedding of `find_challenge_from_client_data`. -/
def find_challenge_from_client_data (client_data : List Nat) : Option (List Nat) :=
  get_from_json_then_map client_data ("challenge".toList)
    (fun challenge => b64Decode (utf8Encode challenge))

/-! ## Model of the `url` crate (external dependency) -/

/-- Characters terminating the host portion of a URL. -/
def isHostEnd (c : Char) : Bool := c = '/' || c = ':' || c = '?' || c = '#'

/-- Characters allowed inside a registrable domain label: ASCII letters,
digits and the hyphen. -/
def isHostLabelChar (c : Char) : Bool :=
  (65 ≤ c.toNat && c.toNat ≤ 90) || (97 ≤ c.toNat && c.toNat ≤ 122) ||
  (48 ≤ c.toNat && c.toNat ≤ 57) || c.toNat = 45

/-- Characters allowed inside a registrable domain (labels and dots). -/
def goodHostChar (c : Char) : Bool := isHostLabelChar c || c.toNat = 46

/-- First-occurrence substring split (Rust `str::split_once` with a
multi-character pattern). -/
def splitSubstrOnce (sep : List Char) : List Char → Option (List Char × List Char)
  | [] => none
  | c :: rest =>
    if sep.isPrefixOf (c :: rest) then some ([], (c :: rest).drop sep.length)
    else (splitSubstrOnce sep rest).map (fun p => (c :: p.1, p.2))

/-- Modelled from the spec: the external `url` crate composition
`Url::parse(&origin).ok()?.domain()?` ("locate the `origin` key, parse it
as a URL, take its domain"), restricted to origins of the simple form
`scheme://host...`: an alphabetic scheme before the first `://`, then the
host up to the first `/`, `:`, `?` or `#`, which must be a non-empty
registrable domain.  Anything else yields `none`, as `Url::parse` errors
(or a domain-less URL) do. -/
def urlDomain (s : List Char) : Option (List Char) :=
  match splitSubstrOnce (':' :: '/' :: ['/']) s with
  | none => none
  | some p =>
    if p.1 ≠ [] && p.1.all Char.isAlpha then
      let host := p.2.takeWhile (fun c => !isHostEnd c)
      if host ≠ [] && host.all goodHostChar then some host else none
    else none

/-- Embedding of `find_authority_id_from_client_data`. -/
def find_authority_id_from_client_data (client_data : List Nat) : Option (List Nat) :=
  get_from_json_then_map client_data ("origin".toList)
    (fun origin =>
      match urlDomain origin with
      | none => none
      | some domain =>
        match splitOnce '.' domain with
        | none => none
        | some p => some (utf8Encode p.1))

/-! ## External cryptographic primitives (`p256` / `sha2` crates)

`webauthn_verify` composes four primitives from external crates: SHA-256,
`DecodePublicKey::from_public_key_der` (DER `SubjectPublicKeyInfo` for a
P-256 key), `DerSignature::try_from` (ASN.1 DER ECDSA signature), and
`VerifyingKey::verify` (ECDSA/P-256/SHA-256).  They are kept abstract as a
parameter bundle; only the repository's own composition of them is
embedded. -/

/-- Abstract bundle of the external crates' cryptographic primitives. -/
structure Crypto where
  /-- Type of decoded P-256 public keys (`PublicKey<NistP256>`). -/
  PubKey : Type
  /-- Type of decoded ECDSA signatures (`DerSignature`). -/
  Sig : Type
  /-- `Sha256::digest` (always 32 bytes). -/
  sha256 : List Nat → List Nat
  /-- `DecodePublicKey::from_public_key_der`, `none` on decode failure. -/
  decodePublicKeyDer : List Nat → Option PubKey
  /-- `DerSignature::try_from`, `none` on parse failure. -/
  decodeDerSignature : List Nat → Option Sig
  /-- `VerifyingKey::verify` over a message (ECDSA/P-256/SHA-256). -/
  ecdsaVerify : PubKey → List Nat → Sig → Bool

/-- The error type of `webauthn_verify` (`verifier/src/lib.rs`). -/
inductive VerifyError
  | ExtractPublicKey
  | ParseSignature
  | VerifySignature
  deriving DecidableEq, Repr

/-- Embedding of `webauthn_verify` (`verifier/src/lib.rs`): hash the
client data, concatenate it after the authenticator data, decode the key,
parse the signature, verify; each failure maps to its error variant. -/
def webauthn_verify (C : Crypto) (authenticator_data client_data_json
    signature_der credential_public_key_der : List Nat) : Except VerifyError Unit :=
  let client_data_hash := C.sha256 client_data_json
  let message := authenticator_data ++ client_data_hash
  match C.decodePublicKeyDer credential_public_key_der with
  | none => .error .ExtractPublicKey
  | some public_key =>
    match C.decodeDerSignature signature_der with
    | none => .error .ParseSignature
    | some signature =>
      if C.ecdsaVerify public_key message signature then .ok ()
      else .error .VerifySignature

/-- A concrete instance of the primitive bundle, used only to instantiate
universally quantified theorems at a closed input. -/
def trivCrypto : Crypto where
  PubKey := Unit
  Sig := Unit
  sha256 := fun _ => List.replicate 32 0
  decodePublicKeyDer := fun _ => some ()
  decodeDerSignature := fun _ => some ()
  ecdsaVerify := fun _ _ _ => true

/-! ## Data model (`pass-webauthn/src/lib.rs`) -/

/-- `AttestationMeta<Cx>`. -/
structure AttestationMeta (Cx : Type) where
  authority_id : List Nat
  device_id : List Nat
  context : Cx

/-- `Attestation<Cx>`.  Note: the structure carries no signature field. -/
structure Attestation (Cx : Type) where
  meta : AttestationMeta Cx
  authenticator_data : List Nat
  client_data : List Nat
  public_key : List Nat

/-- `AssertionMeta<Cx>`. -/
structure AssertionMeta (Cx : Type) where
  authority_id : List Nat
  user_id : List Nat
  context : Cx

/-- `Assertion<Cx>`. -/
structure Assertion (Cx : Type) where
  meta : AssertionMeta Cx
  authenticator_data : List Nat
  client_data : List Nat
  signature : List Nat

/-- `Credential`: the record the host persists at registration time. -/
structure Credential where
  device_id : List Nat
  public_key : List Nat

/-! ## Trait implementations (`pass-webauthn/src/runtime_impls/`) -/

/-- `Attestation::challenge` (`runtime_impls/attestation.rs`). -/
def Attestation.challenge {Cx : Type} (a : Attestation Cx) : List Nat :=
  (find_challenge_from_client_data a.client_data).getD default32

/-- `DeviceChallengeResponse::is_valid` for `Attestation`
(`runtime_impls/attestation.rs`): the body is literally `true`. -/
def Attestation.is_valid {Cx : Type} (_ : Attestation Cx) : Bool := true

/-- `DeviceChallengeResponse::used_challenge` for `Attestation`. -/
def Attestation.used_challenge {Cx : Type} (a : Attestation Cx) : Cx × List Nat :=
  (a.meta.context, a.challenge)

/-- `DeviceChallengeResponse::authority` for `Attestation`: returns the
carried metadata field. -/
def Attestation.authority {Cx : Type} (a : Attestation Cx) : List Nat :=
  a.meta.authority_id

/-- `DeviceChallengeResponse::device_id` for `Attestation`. -/
def Attestation.device_id {Cx : Type} (a : Attestation Cx) : List Nat :=
  a.meta.device_id

/-- `Assertion::challenge` (`runtime_impls/assertion.rs`). -/
def Assertion.challenge {Cx : Type} (a : Assertion Cx) : List Nat :=
  (find_challenge_from_client_data a.client_data).getD default32

/-- `UserChallengeResponse::is_valid` for `Assertion`
(`runtime_impls/assertion.rs`): the body is literally `true`. -/
def Assertion.is_valid {Cx : Type} (_ : Assertion Cx) : Bool := true

/-- `UserChallengeResponse::used_challenge` for `Assertion`. -/
def Assertion.used_challenge {Cx : Type} (a : Assertion Cx) : Cx × List Nat :=
  (a.meta.context, a.challenge)

/-- `UserChallengeResponse::authority` for `Assertion`: re-derived from
the raw client data. -/
def Assertion.authority {Cx : Type} (a : Assertion Cx) : List Nat :=
  (find_authority_id_from_client_data a.client_data).getD default32

/-- `UserChallengeResponse::user_id` for `Assertion`. -/
def Assertion.user_id {Cx : Type} (a : Assertion Cx) : List Nat :=
  a.meta.user_id

/-- `VerifyCredential::verify` for `Credential`
(`runtime_impls/credential.rs`): runs `webauthn_verify` over the
assertion's fields with the stored public key, `.ok()`-converted. -/
def Credential.verify {Cx : Type} (C : Crypto) (self : Credential)
    (credential : Assertion Cx) : Option Unit :=
  match webauthn_verify C credential.authenticator_data credential.client_data
      credential.signature self.public_key with
  | .ok _ => some ()
  | .error _ => none

/-! ## Helper lemmas about the scanner primitives -/

theorem splitOnComma_ne_nil (s : List Char) : splitOnComma s ≠ [] := by
  induction s with
  | nil => simp [splitOnComma]
  | cons c rest ih =>
    simp only [splitOnComma]
    split
    · simp
    · cases h : splitOnComma rest <;> simp

theorem splitOnComma_append (xs ys : List Char) (h : ',' ∉ xs) :
    splitOnComma (xs ++ ys) =
      (xs ++ (splitOnComma ys).headD []) :: (splitOnComma ys).tail := by
  induction xs with
  | nil =>
    simp only [List.nil_append]
    cases hy : splitOnComma ys with
    | nil => exact absurd hy (splitOnComma_ne_nil ys)
    | cons s ss => simp
  | cons c xs ih =>
    have hc : ¬ c = ',' := fun hc => h (hc ▸ List.mem_cons_self c xs)
    have hxs : ',' ∉ xs := fun hm => h (List.mem_cons_of_mem c hm)
    simp only [List.cons_append, splitOnComma, if_neg hc, List.append_eq, ih hxs]

theorem splitOnComma_append_comma (xs ys : List Char) (h : ',' ∉ xs) :
    splitOnComma (xs ++ ',' :: ys) = xs :: splitOnComma ys := by
  rw [splitOnComma_append xs (',' :: ys) h]
  simp [splitOnComma]

theorem splitOnComma_no_comma (xs : List Char) (h : ',' ∉ xs) :
    splitOnComma xs = [xs] := by
  have h2 := splitOnComma_append xs [] h
  simp only [List.append_nil, splitOnComma] at h2
  simpa using h2

theorem splitOnce_append_sep (sep : Char) (xs ys : List Char) (h : sep ∉ xs) :
    splitOnce sep (xs ++ sep :: ys) = some (xs, ys) := by
  induction xs with
  | nil => simp [splitOnce]
  | cons c xs ih =>
    have hc : ¬ c = sep := fun hc => h (hc ▸ List.mem_cons_self c xs)
    have hxs : sep ∉ xs := fun hm => h (List.mem_cons_of_mem c hm)
    simp [splitOnce, if_neg hc, ih hxs]

theorem splitOnce_eq_none (sep : Char) (xs : List Char) (h : sep ∉ xs) :
    splitOnce sep xs = none := by
  induction xs with
  | nil => rfl
  | cons c xs ih =>
    have hc : ¬ c = sep := fun hc => h (hc ▸ List.mem_cons_self c xs)
    have hxs : sep ∉ xs := fun hm => h (List.mem_cons_of_mem c hm)
    simp [splitOnce, if_neg hc, ih hxs]

theorem containsSubstr_nil (l : List Char) : containsSubstr [] l = true := by
  induction l with
  | nil => rfl
  | cons c l ih => simp [containsSubstr, ih]

theorem containsSubstr_mono (key xs ys : List Char)
    (h : containsSubstr key xs = true) : containsSubstr key (xs ++ ys) = true := by
  induction xs with
  | nil =>
    have : key = [] := by simpa [containsSubstr, List.isEmpty_iff] using h
    subst this
    exact containsSubstr_nil ys
  | cons c xs ih =>
    simp only [containsSubstr, Bool.or_eq_true] at h
    rcases h with h | h
    · have hpre : key <+: c :: xs := List.isPrefixOf_iff_prefix.mp h
      have hpre2 : key <+: c :: (xs ++ ys) := by
        rcases hpre with ⟨t, ht⟩
        refine ⟨t ++ ys, ?_⟩
        rw [← List.append_assoc, ht]
        rfl
      simp [containsSubstr, List.isPrefixOf_iff_prefix.mpr hpre2]
    · simp [containsSubstr, ih h]

theorem dropWhile_of_forall_false (p : Char → Bool) (l : List Char)
    (h : ∀ c ∈ l, p c = false) : l.dropWhile p = l := by
  cases l with
  | nil => rfl
  | cons a l =>
    rw [List.dropWhile_cons_of_neg]
    simp [h a (List.mem_cons_self a l)]

theorem trimValue_quoted (mid : List Char) (h : ∀ c ∈ mid, isTrimChar c = false) :
    trimValue ('"' :: (mid ++ ['"'])) = mid := by
  have hq : isTrimChar '"' = true := by decide
  unfold trimValue
  rw [List.dropWhile_cons_of_pos (by simp [hq])]
  cases mid with
  | nil => simp [List.dropWhile, hq]
  | cons m ms =>
    have hm : isTrimChar m = false := h m (List.mem_cons_self m ms)
    rw [List.cons_append, List.dropWhile_cons_of_neg (by simp [hm])]
    have hrev : (m :: (ms ++ ['"'])).reverse = '"' :: (ms.reverse ++ [m]) := by simp
    rw [hrev, List.dropWhile_cons_of_pos (by simp [hq])]
    have hall : ∀ c ∈ ms.reverse ++ [m], isTrimChar c = false := by
      intro c hc
      rcases List.mem_append.mp hc with hc | hc
      · exact h c (List.mem_cons_of_mem m (List.mem_reverse.mp hc))
      · simp only [List.mem_singleton] at hc
        exact hc ▸ hm
    rw [dropWhile_of_forall_false _ _ hall]
    simp

theorem splitSubstrOnce_not_head (s0 : Char) (stail : List Char)
    (xs ys : List Char) (h : s0 ∉ xs) :
    splitSubstrOnce (s0 :: stail) (xs ++ ys) =
      (splitSubstrOnce (s0 :: stail) ys).map (fun p => (xs ++ p.1, p.2)) := by
  induction xs with
  | nil =>
    cases hy : splitSubstrOnce (s0 :: stail) ys <;> simp [hy]
  | cons c xs ih =>
    have hc : ¬ c = s0 := fun hc => h (hc ▸ List.mem_cons_self c xs)
    have hxs : s0 ∉ xs := fun hm => h (List.mem_cons_of_mem c hm)
    have hnp : ((s0 :: stail).isPrefixOf (c :: (xs ++ ys))) = false := by
      simp only [List.isPrefixOf_cons₂, Bool.and_eq_false_iff, beq_eq_false_iff_ne]
      exact Or.inl (fun hec => hc hec.symm)
    simp only [List.cons_append, splitSubstrOnce]
    rw [if_neg (by simp [hnp])]
    rw [List.append_eq, ih hxs]
    cases hy : splitSubstrOnce (s0 :: stail) ys <;> simp [hy]

theorem splitSubstrOnce_self (sep ys : List Char) (h : sep ≠ []) :
    splitSubstrOnce sep (sep ++ ys) = some ([], ys) := by
  cases hs : sep with
  | nil => exact absurd hs h
  | cons s0 stail =>
    have hpre : (s0 :: stail).isPrefixOf ((s0 :: stail) ++ ys) = true :=
      List.isPrefixOf_iff_prefix.mpr ⟨ys, rfl⟩
    rw [List.cons_append, splitSubstrOnce]
    rw [← List.cons_append, if_pos]
    · rw [List.drop_left']
      simp
    · exact hpre

/-! ## Helper lemmas: ASCII UTF-8 round trip -/

theorem char_eq_of_toNat_eq (c : Char) (n : Nat) (h : c.toNat = n) :
    c = Char.ofNat n := by
  rw [← h, Char.ofNat_toNat]

theorem utf8EncodeChar_ascii (c : Char) (h : c.toNat ≤ 0x7F) :
    utf8EncodeChar c = [c.toNat] := by
  simp [utf8EncodeChar, h]

theorem utf8Encode_ascii (s : List Char) (h : ∀ c ∈ s, c.toNat ≤ 0x7F) :
    utf8Encode s = s.map Char.toNat := by
  induction s with
  | nil => rfl
  | cons c s ih =>
    have hc := h c (List.mem_cons_self c s)
    have hs : ∀ x ∈ s, x.toNat ≤ 0x7F := fun x hx => h x (List.mem_cons_of_mem c hx)
    simp only [utf8Encode, List.map_cons, List.flatten_cons,
      utf8EncodeChar_ascii c hc]
    rw [← utf8Encode, ih hs]
    rfl

theorem utf8DecodeFuel_succ (f : Nat) (b : Nat) (bs : List Nat) :
    utf8DecodeFuel (f + 1) (b :: bs) =
      (if b ≤ 0x7F then
        (utf8DecodeFuel f bs).map (fun cs => Char.ofNat b :: cs)
      else if 0xC2 ≤ b && b ≤ 0xDF then
        match bs with
        | b1 :: bs1 =>
          if isCont b1 then
            (utf8DecodeFuel f bs1).map
              (fun cs => Char.ofNat ((b - 0xC0) * 0x40 + (b1 - 0x80)) :: cs)
          else none
        | [] => none
      else if 0xE0 ≤ b && b ≤ 0xEF then
        match bs with
        | b1 :: b2 :: bs2 =>
          let cp := (b - 0xE0) * 0x1000 + (b1 - 0x80) * 0x40 + (b2 - 0x80)
          if isCont b1 && isCont b2 && 0x800 ≤ cp && !(0xD800 ≤ cp && cp ≤ 0xDFFF) then
            (utf8DecodeFuel f bs2).map (fun cs => Char.ofNat cp :: cs)
          else none
        | _ => none
      else if 0xF0 ≤ b && b ≤ 0xF4 then
        match bs with
        | b1 :: b2 :: b3 :: bs3 =>
          let cp := (b - 0xF0) * 0x40000 + (b1 - 0x80) * 0x1000 +
            (b2 - 0x80) * 0x40 + (b3 - 0x80)
          if isCont b1 && isCont b2 && isCont b3 && 0x10000 ≤ cp && cp ≤ 0x10FFFF then
            (utf8DecodeFuel f bs3).map (fun cs => Char.ofNat cp :: cs)
          else none
        | _ => none
      else none) := rfl

theorem utf8Decode_cons_ascii (b : Nat) (bs : List Nat) (hb : b ≤ 0x7F) :
    utf8Decode (b :: bs) = (utf8Decode bs).map (fun cs => Char.ofNat b :: cs) := by
  show utf8DecodeFuel (b :: bs).length (b :: bs) = _
  rw [List.length_cons, utf8DecodeFuel_succ, if_pos hb]
  rfl

theorem utf8Decode_ascii (bs : List Nat) (h : ∀ b ∈ bs, b ≤ 0x7F) :
    utf8Decode bs = some (bs.map Char.ofNat) := by
  induction bs with
  | nil => rfl
  | cons b bs ih =>
    have hb := h b (List.mem_cons_self b bs)
    have hs : ∀ x ∈ bs, x ≤ 0x7F := fun x hx => h x (List.mem_cons_of_mem b hx)
    rw [utf8Decode_cons_ascii b bs hb, ih hs]
    rfl

theorem utf8_roundtrip_ascii (s : List Char) (h : ∀ c ∈ s, c.toNat ≤ 0x7F) :
    utf8Decode (utf8Encode s) = some s := by
  rw [utf8Encode_ascii s h, utf8Decode_ascii _ (by simpa using h)]
  rw [List.map_map]
  have h2 : ∀ c ∈ s, (Char.ofNat ∘ Char.toNat) c = id c := fun c _ => Char.ofNat_toNat c
  rw [List.map_congr_left h2, List.map_id]

/-! ## Helper lemmas: base64url round trip -/

theorem b64SextetChar_spec : ∀ v, v < 64 →
    (b64SextetChar v).toNat ≤ 0x7F ∧
    b64ValOfByte ((b64SextetChar v).toNat) = some v ∧
    isTrimChar (b64SextetChar v) = false ∧
    ¬ b64SextetChar v = ',' ∧ ¬ b64SextetChar v = ':' := by decide

theorem b64EncodeVals_lt : ∀ bs, (∀ b ∈ bs, b < 256) → ∀ v ∈ b64EncodeVals bs, v < 64
  | [], _ => by simp [b64EncodeVals]
  | [a], h => by
    have ha := h a (by simp)
    simp only [b64EncodeVals, List.mem_cons, List.mem_singleton, List.not_mem_nil]
    intro v hv
    rcases hv with rfl | hv
    · omega
    · simp at hv
      omega
  | [a, b], h => by
    have ha := h a (by simp)
    have hb := h b (by simp)
    simp only [b64EncodeVals, List.mem_cons, List.not_mem_nil]
    intro v hv
    rcases hv with rfl | rfl | rfl | hv
    · omega
    · omega
    · omega
    · simp at hv
  | a :: b :: c :: rest, h => by
    have ha := h a (by simp)
    have hb := h b (by simp)
    have hc := h c (by simp)
    have ih := b64EncodeVals_lt rest (fun x hx => h x (by simp [hx]))
    simp only [b64EncodeVals, List.mem_cons]
    intro v hv
    rcases hv with rfl | rfl | rfl | rfl | hv
    · omega
    · omega
    · omega
    · omega
    · exact ih v hv

theorem mapOption_b64_inverse (l : List Nat) (h : ∀ v ∈ l, v < 64) :
    mapOption b64ValOfByte (l.map (fun v => (b64SextetChar v).toNat)) = some l := by
  induction l with
  | nil => rfl
  | cons v l ih =>
    have hv := (b64SextetChar_spec v (h v (List.mem_cons_self v l))).2.1
    simp only [List.map_cons, mapOption, hv]
    rw [ih (fun x hx => h x (List.mem_cons_of_mem v hx))]
    rfl

theorem b64DecodeVals_encodeVals :
    ∀ bs, (∀ b ∈ bs, b < 256) → b64DecodeVals (b64EncodeVals bs) = some bs
  | [], _ => rfl
  | [a], h => by
    have ha := h a (by simp)
    simp only [b64EncodeVals, b64DecodeVals]
    rw [if_pos (by omega)]
    congr 1
    simp only [List.cons.injEq, and_true]
    omega
  | [a, b], h => by
    have ha := h a (by simp)
    have hb := h b (by simp)
    simp only [b64EncodeVals, b64DecodeVals]
    rw [if_pos (by omega)]
    congr 1
    simp only [List.cons.injEq, and_true]
    refine ⟨by omega, by omega⟩
  | a :: b :: c :: rest, h => by
    have ha := h a (by simp)
    have hb := h b (by simp)
    have hc := h c (by simp)
    have ih := b64DecodeVals_encodeVals rest (fun x hx => h x (by simp [hx]))
    show b64DecodeVals
        ((a / 4) :: (a % 4 * 16 + b / 16) :: (b % 16 * 4 + c / 64) :: (c % 64) ::
          b64EncodeVals rest) = _
    rw [show b64DecodeVals
        ((a / 4) :: (a % 4 * 16 + b / 16) :: (b % 16 * 4 + c / 64) :: (c % 64) ::
          b64EncodeVals rest) =
      (b64DecodeVals (b64EncodeVals rest)).map
        (fun tl => (a / 4 * 4 + (a % 4 * 16 + b / 16) / 16) ::
          ((a % 4 * 16 + b / 16) % 16 * 16 + (b % 16 * 4 + c / 64) / 4) ::
          ((b % 16 * 4 + c / 64) % 4 * 64 + c % 64) :: tl) from rfl]
    rw [ih]
    simp only [Option.map_some', Option.some.injEq, List.cons.injEq]
    refine ⟨by omega, by omega, by omega, trivial⟩

theorem b64Encode_chars (bs : List Nat) (h : ∀ b ∈ bs, b < 256) :
    ∀ ch ∈ b64Encode bs, ch.toNat ≤ 0x7F ∧ isTrimChar ch = false ∧
      ¬ ch = ',' ∧ ¬ ch = ':' := by
  intro ch hch
  rcases List.mem_map.mp hch with ⟨v, hv, rfl⟩
  have hlt := b64EncodeVals_lt bs h v hv
  obtain ⟨h1, _, h3, h4, h5⟩ := b64SextetChar_spec v hlt
  exact ⟨h1, h3, h4, h5⟩

theorem b64_roundtrip (bs : List Nat) (h : ∀ b ∈ bs, b < 256) :
    b64Decode (utf8Encode (b64Encode bs)) = some bs := by
  have hascii : ∀ ch ∈ b64Encode bs, ch.toNat ≤ 0x7F :=
    fun ch hch => (b64Encode_chars bs h ch hch).1
  rw [utf8Encode_ascii _ hascii]
  unfold b64Encode
  rw [List.map_map]
  unfold b64Decode
  rw [show (Char.toNat ∘ b64SextetChar) = fun v => (b64SextetChar v).toNat from rfl]
  rw [mapOption_b64_inverse _ (b64EncodeVals_lt bs h)]
  exact b64DecodeVals_encodeVals bs h

/-! ## Helper lemmas: the segment scan and fixed-size decode -/

theorem scanSegments_skip_then_hit (key : List Char) (pre : List (List Char))
    (seg : List Char) (post : List (List Char))
    (hpre : ∀ kv ∈ pre, containsSubstr key kv = false)
    (hseg : containsSubstr key seg = true)
    (l r : List Char) (hsplit : splitOnce ':' seg = some (l, r)) :
    scanSegments key (pre ++ seg :: post) = some r := by
  induction pre with
  | nil =>
    simp only [List.nil_append, scanSegments, hsplit, hseg]
    simp
  | cons kv pre ih =>
    have hkv := hpre kv (List.mem_cons_self kv pre)
    have ihp := ih (fun x hx => hpre x (List.mem_cons_of_mem kv hx))
    simp only [List.cons_append, scanSegments]
    cases hk : splitOnce ':' kv with
    | none => simpa using ihp
    | some p => simpa [hkv] using ihp

theorem scanSegments_eq_none_iff (key : List Char) (segs : List (List Char)) :
    scanSegments key segs = none ↔
      ∀ kv ∈ segs, splitOnce ':' kv = none ∨ containsSubstr key kv = false := by
  induction segs with
  | nil => simp [scanSegments]
  | cons kv segs ih =>
    simp only [scanSegments]
    cases hk : splitOnce ':' kv with
    | none => simp [ih, hk]
    | some p =>
      cases hc : containsSubstr key kv with
      | false => simp [ih, hk, hc]
      | true => simp [hk, hc]

theorem decodeFixed32_length (v : List Nat) : (decodeFixed32 v).length = 32 := by
  simp only [decodeFixed32, List.length_take, List.length_append,
    List.length_replicate]
  omega

theorem decodeFixed32_of_length_32 (v : List Nat) (h : v.length = 32) :
    decodeFixed32 v = v := by
  rw [decodeFixed32, ← h, List.take_left]

theorem goodHostChar_ne (c d : Char) (h : goodHostChar c = true)
    (hd : goodHostChar d = false) : ¬ c = d := by
  intro hc
  rw [hc, hd] at h
  cases h

theorem goodHostChar_facts (c : Char) (h : goodHostChar c = true) :
    isHostEnd c = false ∧ isTrimChar c = false ∧
      ¬ c = ',' ∧ ¬ c = ':' ∧ c.toNat ≤ 0x7F := by
  have h1 : ¬ c = '/' := goodHostChar_ne c '/' h (by decide)
  have h2 : ¬ c = ':' := goodHostChar_ne c ':' h (by decide)
  have h3 : ¬ c = '?' := goodHostChar_ne c '?' h (by decide)
  have h4 : ¬ c = '#' := goodHostChar_ne c '#' h (by decide)
  have h5 : ¬ c = ' ' := goodHostChar_ne c ' ' h (by decide)
  have h6 : ¬ c = '"' := goodHostChar_ne c '"' h (by decide)
  have h7 : ¬ c = ',' := goodHostChar_ne c ',' h (by decide)
  have hn : c.toNat ≤ 0x7F := by
    simp only [goodHostChar, isHostLabelChar, Bool.or_eq_true, Bool.and_eq_true,
      decide_eq_true_eq] at h
    omega
  exact ⟨by simp [isHostEnd, h1, h2, h3, h4],
    by simp [isTrimChar, h5, h6], h7, h2, hn⟩

theorem get_from_json_eq_none_iff (json : List Nat) (key : List Char)
    (map : List Char → Option (List Nat)) :
    get_from_json_then_map json key map = none ↔
      utf8Decode json = none ∨
      (∃ s, utf8Decode json = some s ∧
        (scanSegments key (splitOnComma s) = none ∨
         ∃ v, scanSegments key (splitOnComma s) = some v ∧
           map (trimValue v) = none)) := by
  unfold get_from_json_then_map
  cases hu : utf8Decode json with
  | none => simp
  | some s =>
    cases hs : scanSegments key (splitOnComma s) with
    | none => simp [hs]
    | some v =>
      cases hm : map (trimValue v) with
      | none => simp [hs, hm]
      | some d => simp [hs, hm]

theorem get_from_json_some_length (json : List Nat) (key : List Char)
    (map : List Char → Option (List Nat)) (out : List Nat)
    (h : get_from_json_then_map json key map = some out) : out.length = 32 := by
  unfold get_from_json_then_map at h
  split at h
  · cases h
  · split at h
    · cases h
    · split at h
      · cases h
      · cases h
        exact decodeFixed32_length _

theorem get_from_json_none_of_bad_utf8 (json : List Nat) (key : List Char)
    (map : List Char → Option (List Nat)) (h : utf8Decode json = none) :
    get_from_json_then_map json key map = none := by
  unfold get_from_json_then_map
  rw [h]

theorem get_from_json_eq_some (json : List Nat) (key : List Char)
    (map : List Char → Option (List Nat)) (s v : List Char) (d : List Nat)
    (hu : utf8Decode json = some s)
    (hs : scanSegments key (splitOnComma s) = some v)
    (hm : map (trimValue v) = some d) :
    get_from_json_then_map json key map = some (decodeFixed32 d) := by
  unfold get_from_json_then_map
  simp only [hu, hs, hm]

/-! ## Canonical WebAuthn client data carrying a given challenge -/

/-- Client data of the canonical WebAuthn shape
`{"type":"webauthn.create","challenge":"<base64url(c)>","origin":"https://example.com"}`
(UTF-8 bytes), with the challenge encoded without padding. -/
def challengeClientData (c : List Nat) : List Nat :=
  utf8Encode ("\x7b\"type\":\"webauthn.create\",\"challenge\":\"".toList ++ b64Encode c ++
    "\",\"origin\":\"https://example.com\"\x7d".toList)

theorem challengeClientData_decodes (c : List Nat) (hlt : ∀ b ∈ c, b < 256) :
    utf8Decode (challengeClientData c) =
      some ("\x7b\"type\":\"webauthn.create\",\"challenge\":\"".toList ++ b64Encode c ++
        "\",\"origin\":\"https://example.com\"\x7d".toList) := by
  apply utf8_roundtrip_ascii
  have hpre : ∀ x ∈ "\x7b\"type\":\"webauthn.create\",\"challenge\":\"".toList,
      Char.toNat x ≤ 0x7F := by decide
  have hsuf : ∀ x ∈ "\",\"origin\":\"https://example.com\"\x7d".toList,
      Char.toNat x ≤ 0x7F := by decide
  intro ch hch
  rcases List.mem_append.mp hch with hch | hch
  · rcases List.mem_append.mp hch with hch | hch
    · exact hpre ch hch
    · exact (b64Encode_chars c hlt ch hch).1
  · exact hsuf ch hch

theorem find_challenge_roundtrip_aux (c : List Nat) (hlen : c.length = 32)
    (hlt : ∀ b ∈ c, b < 256) :
    find_challenge_from_client_data (challengeClientData c) = some c := by
  have henc := b64Encode_chars c hlt
  have hstruct : "\x7b\"type\":\"webauthn.create\",\"challenge\":\"".toList ++ b64Encode c ++
      "\",\"origin\":\"https://example.com\"\x7d".toList =
      "\x7b\"type\":\"webauthn.create\"".toList ++ ',' ::
        (("\"challenge\"".toList ++ ':' :: '"' :: (b64Encode c ++ ['"'])) ++ ',' ::
          "\"origin\":\"https://example.com\"\x7d".toList) := by
    have h1 : "\x7b\"type\":\"webauthn.create\",\"challenge\":\"".toList =
        "\x7b\"type\":\"webauthn.create\"".toList ++ ',' ::
          ("\"challenge\"".toList ++ [':', '"']) := by decide
    have h2 : "\",\"origin\":\"https://example.com\"\x7d".toList =
        '"' :: ',' :: "\"origin\":\"https://example.com\"\x7d".toList := by decide
    rw [h1, h2]
    simp [List.append_assoc]
  have hsplitc : splitOnComma ("\x7b\"type\":\"webauthn.create\"".toList ++ ',' ::
      (("\"challenge\"".toList ++ ':' :: '"' :: (b64Encode c ++ ['"'])) ++ ',' ::
        "\"origin\":\"https://example.com\"\x7d".toList)) =
      ["\x7b\"type\":\"webauthn.create\"".toList,
       "\"challenge\"".toList ++ ':' :: '"' :: (b64Encode c ++ ['"']),
       "\"origin\":\"https://example.com\"\x7d".toList] := by
    have hno : ',' ∉ "\"challenge\"".toList ++ ':' :: '"' :: (b64Encode c ++ ['"']) := by
      intro hm
      rcases List.mem_append.mp hm with hm | hm
      · revert hm
        decide
      · rcases List.mem_cons.mp hm with hm | hm
        · exact absurd hm (by decide)
        · rcases List.mem_cons.mp hm with hm | hm
          · exact absurd hm (by decide)
          · rcases List.mem_append.mp hm with hm | hm
            · exact absurd rfl ((henc ',' hm).2.2.1)
            · revert hm
              decide
    rw [splitOnComma_append_comma _ _ (by decide)]
    rw [splitOnComma_append_comma _ _ hno]
    rw [splitOnComma_no_comma _ (by decide)]
  have hscan : scanSegments ("challenge".toList)
      (["\x7b\"type\":\"webauthn.create\"".toList,
        "\"challenge\"".toList ++ ':' :: '"' :: (b64Encode c ++ ['"']),
        "\"origin\":\"https://example.com\"\x7d".toList]) =
      some ('"' :: (b64Encode c ++ ['"'])) := by
    have := scanSegments_skip_then_hit ("challenge".toList)
      ["\x7b\"type\":\"webauthn.create\"".toList]
      ("\"challenge\"".toList ++ ':' :: '"' :: (b64Encode c ++ ['"']))
      ["\"origin\":\"https://example.com\"\x7d".toList]
      (by intro kv hkv; simp only [List.mem_singleton] at hkv; subst hkv; decide)
      (containsSubstr_mono _ _ _ (by decide))
      ("\"challenge\"".toList) ('"' :: (b64Encode c ++ ['"']))
      (splitOnce_append_sep ':' _ _ (by decide))
    simpa using this
  have htrim : trimValue ('"' :: (b64Encode c ++ ['"'])) = b64Encode c :=
    trimValue_quoted _ (fun ch hch => (henc ch hch).2.1)
  have hu : utf8Decode (challengeClientData c) =
      some ("\x7b\"type\":\"webauthn.create\"".toList ++ ',' ::
        (("\"challenge\"".toList ++ ':' :: '"' :: (b64Encode c ++ ['"'])) ++ ',' ::
          "\"origin\":\"https://example.com\"\x7d".toList)) := by
    rw [challengeClientData_decodes c hlt]
    exact congrArg some hstruct
  unfold find_challenge_from_client_data
  rw [get_from_json_eq_some _ _ _ _ ('"' :: (b64Encode c ++ ['"'])) c hu
    (by rw [hsplitc]; exact hscan)
    (by rw [htrim]; exact b64_roundtrip c hlt)]
  rw [decodeFixed32_of_length_32 c hlen]

/-! ## Canonical WebAuthn client data carrying a given origin -/

/-- Client data of the canonical WebAuthn shape with origin
`https://<label>.<rest>` (UTF-8 bytes). -/
def originClientData (label rest : List Char) : List Nat :=
  utf8Encode ("\x7b\"type\":\"webauthn.get\",\"challenge\":\"AAAA\",\"origin\":\"https://".toList ++
    (label ++ '.' :: rest) ++ "\",\"crossOrigin\":false\x7d".toList)

theorem isHostLabelChar_good (c : Char) (h : isHostLabelChar c = true) :
    goodHostChar c = true := by
  simp [goodHostChar, h]

theorem isHostLabelChar_ne_dot (c : Char) (h : isHostLabelChar c = true) :
    ¬ c = '.' := by
  intro hc
  rw [hc] at h
  exact absurd h (by decide)

theorem find_authority_origin_aux (label rest : List Char)
    (hne : label ≠ [])
    (hlab : ∀ ch ∈ label, isHostLabelChar ch = true)
    (hrest : ∀ ch ∈ rest, goodHostChar ch = true) :
    find_authority_id_from_client_data (originClientData label rest) =
      some (decodeFixed32 (utf8Encode label)) := by
  have hhost : ∀ ch ∈ label ++ '.' :: rest, goodHostChar ch = true := by
    intro ch hch
    rcases List.mem_append.mp hch with hch | hch
    · exact isHostLabelChar_good ch (hlab ch hch)
    · rcases List.mem_cons.mp hch with hch | hch
      · rw [hch]
        decide
      · exact hrest ch hch
  have hurl : ∀ ch ∈ "https://".toList ++ (label ++ '.' :: rest),
      isTrimChar ch = false ∧ ¬ ch = ',' ∧ ch.toNat ≤ 0x7F := by
    have hp : ∀ x ∈ "https://".toList,
        isTrimChar x = false ∧ ¬ x = ',' ∧ Char.toNat x ≤ 0x7F := by decide
    intro ch hch
    rcases List.mem_append.mp hch with hch | hch
    · exact hp ch hch
    · obtain ⟨_, f2, f3, _, f5⟩ := goodHostChar_facts ch (hhost ch hch)
      exact ⟨f2, f3, f5⟩
  -- the decoded character string, in scanner-friendly shape
  have hdecode : utf8Decode (originClientData label rest) =
      some ("\x7b\"type\":\"webauthn.get\"".toList ++ ',' ::
        ("\"challenge\":\"AAAA\"".toList ++ ',' ::
          (("\"origin\"".toList ++ ':' :: '"' ::
            (("https://".toList ++ (label ++ '.' :: rest)) ++ ['"'])) ++ ',' ::
            "\"crossOrigin\":false\x7d".toList))) := by
    have hflat : utf8Decode (originClientData label rest) =
        some ("\x7b\"type\":\"webauthn.get\",\"challenge\":\"AAAA\",\"origin\":\"https://".toList ++
          (label ++ '.' :: rest) ++ "\",\"crossOrigin\":false\x7d".toList) := by
      apply utf8_roundtrip_ascii
      have hp : ∀ x ∈ "\x7b\"type\":\"webauthn.get\",\"challenge\":\"AAAA\",\"origin\":\"https://".toList,
          Char.toNat x ≤ 0x7F := by decide
      have hq : ∀ x ∈ "\",\"crossOrigin\":false\x7d".toList, Char.toNat x ≤ 0x7F := by decide
      intro ch hch
      rcases List.mem_append.mp hch with hch | hch
      · rcases List.mem_append.mp hch with hch | hch
        · exact hp ch hch
        · rcases List.mem_append.mp hch with hch | hch
          · exact (goodHostChar_facts ch (isHostLabelChar_good ch (hlab ch hch))).2.2.2.2
          · rcases List.mem_cons.mp hch with hch | hch
            · rw [hch]
              decide
            · exact (goodHostChar_facts ch (hrest ch hch)).2.2.2.2
      · exact hq ch hch
    rw [hflat]
    apply congrArg some
    have h1 : "\x7b\"type\":\"webauthn.get\",\"challenge\":\"AAAA\",\"origin\":\"https://".toList =
        "\x7b\"type\":\"webauthn.get\"".toList ++ ',' ::
          ("\"challenge\":\"AAAA\"".toList ++ ',' ::
            ("\"origin\"".toList ++ ':' :: '"' :: "https://".toList)) := by decide
    have h2 : "\",\"crossOrigin\":false\x7d".toList =
        '"' :: ',' :: "\"crossOrigin\":false\x7d".toList := by decide
    rw [h1, h2]
    simp [List.append_assoc]
  have hmidseg : ',' ∉ "\"origin\"".toList ++ ':' :: '"' ::
      (("https://".toList ++ (label ++ '.' :: rest)) ++ ['"']) := by
    intro hm
    rcases List.mem_append.mp hm with hm | hm
    · revert hm
      decide
    · rcases List.mem_cons.mp hm with hm | hm
      · exact absurd hm (by decide)
      · rcases List.mem_cons.mp hm with hm | hm
        · exact absurd hm (by decide)
        · rcases List.mem_append.mp hm with hm | hm
          · exact absurd rfl (hurl ',' hm).2.1
          · revert hm
            decide
  have hsplitc : splitOnComma ("\x7b\"type\":\"webauthn.get\"".toList ++ ',' ::
      ("\"challenge\":\"AAAA\"".toList ++ ',' ::
        (("\"origin\"".toList ++ ':' :: '"' ::
          (("https://".toList ++ (label ++ '.' :: rest)) ++ ['"'])) ++ ',' ::
          "\"crossOrigin\":false\x7d".toList))) =
      ["\x7b\"type\":\"webauthn.get\"".toList,
       "\"challenge\":\"AAAA\"".toList,
       "\"origin\"".toList ++ ':' :: '"' ::
         (("https://".toList ++ (label ++ '.' :: rest)) ++ ['"']),
       "\"crossOrigin\":false\x7d".toList] := by
    rw [splitOnComma_append_comma _ _ (by decide)]
    rw [splitOnComma_append_comma _ _ (by decide)]
    rw [splitOnComma_append_comma _ _ hmidseg]
    rw [splitOnComma_no_comma _ (by decide)]
  have hscan : scanSegments ("origin".toList)
      ["\x7b\"type\":\"webauthn.get\"".toList,
       "\"challenge\":\"AAAA\"".toList,
       "\"origin\"".toList ++ ':' :: '"' ::
         (("https://".toList ++ (label ++ '.' :: rest)) ++ ['"']),
       "\"crossOrigin\":false\x7d".toList] =
      some ('"' :: (("https://".toList ++ (label ++ '.' :: rest)) ++ ['"'])) := by
    have := scanSegments_skip_then_hit ("origin".toList)
      ["\x7b\"type\":\"webauthn.get\"".toList, "\"challenge\":\"AAAA\"".toList]
      ("\"origin\"".toList ++ ':' :: '"' ::
        (("https://".toList ++ (label ++ '.' :: rest)) ++ ['"']))
      ["\"crossOrigin\":false\x7d".toList]
      (by
        intro kv hkv
        rcases List.mem_cons.mp hkv with hkv | hkv
        · rw [hkv]
          decide
        · rcases List.mem_cons.mp hkv with hkv | hkv
          · rw [hkv]
            decide
          · simp at hkv)
      (containsSubstr_mono _ _ _ (by decide))
      ("\"origin\"".toList)
      ('"' :: (("https://".toList ++ (label ++ '.' :: rest)) ++ ['"']))
      (splitOnce_append_sep ':' _ _ (by decide))
    simpa using this
  have htrim : trimValue ('"' :: (("https://".toList ++ (label ++ '.' :: rest)) ++ ['"'])) =
      "https://".toList ++ (label ++ '.' :: rest) :=
    trimValue_quoted _ (fun ch hch => (hurl ch hch).1)
  have hdomain : urlDomain ("https://".toList ++ (label ++ '.' :: rest)) =
      some (label ++ '.' :: rest) := by
    have hsplit : splitSubstrOnce (':' :: '/' :: ['/'])
        ("https://".toList ++ (label ++ '.' :: rest)) =
        some ("https".toList, label ++ '.' :: rest) := by
      have hshape : "https://".toList ++ (label ++ '.' :: rest) =
          "https".toList ++ ((':' :: '/' :: ['/']) ++ (label ++ '.' :: rest)) := by
        have : "https://".toList = "https".toList ++ (':' :: '/' :: ['/']) := by decide
        rw [this, List.append_assoc]
      rw [hshape]
      rw [splitSubstrOnce_not_head ':' ('/' :: ['/']) _ _ (by decide)]
      rw [splitSubstrOnce_self _ _ (by decide)]
      rfl
    unfold urlDomain
    rw [hsplit]
    have htake : (label ++ '.' :: rest).takeWhile (fun c => !isHostEnd c) =
        label ++ '.' :: rest := by
      apply List.takeWhile_eq_self_iff.mpr
      intro c hc
      simp [(goodHostChar_facts c (hhost c hc)).1]
    have hcond : ("https".toList ≠ [] && "https".toList.all Char.isAlpha) = true := by decide
    simp only [hcond, if_true, htake]
    have hgood : (label ++ '.' :: rest ≠ [] && (label ++ '.' :: rest).all goodHostChar) = true := by
      have h1 : label ++ '.' :: rest ≠ [] := by
        intro hemp
        cases label <;> simp_all
      simp [h1, List.all_eq_true.mpr hhost]
    rw [if_pos hgood]
  have hdot : splitOnce '.' (label ++ '.' :: rest) = some (label, rest) :=
    splitOnce_append_sep '.' label rest
      (fun hm => absurd rfl (isHostLabelChar_ne_dot '.' (hlab '.' hm)))
  unfold find_authority_id_from_client_data
  rw [get_from_json_eq_some _ _ _ _
    ('"' :: (("https://".toList ++ (label ++ '.' :: rest)) ++ ['"']))
    (utf8Encode label) hdecode
    (by rw [hsplitc]; exact hscan)
    (by simp only [htrim, hdomain, hdot])]

theorem get_from_json_getD_length (json : List Nat) (key : List Char)
    (map : List Char → Option (List Nat)) :
    ((get_from_json_then_map json key map).getD default32).length = 32 := by
  cases h : get_from_json_then_map json key map with
  | none => simp [default32]
  | some v => simpa using get_from_json_some_length json key map v h

/-! ## Concrete inputs used by the claim theorems -/

/-- Client data whose challenge value `"AA"` base64url-decodes to the
single byte `0x00` (wrong length for a 32-byte challenge). -/
def c5ClientData : List Nat :=
  utf8Encode "\x7b\"type\":\"webauthn.create\",\"challenge\":\"AA\",\"origin\":\"https://rpid.example.com\",\"crossOrigin\":false\x7d".toList

/-- An attestation whose carried `meta.authority_id` (all-ones) disagrees
with the authority derivable from its client data (`"rpid"` zero-padded). -/
def c2Attestation : Attestation Nat where
  meta :=
    { authority_id := List.replicate 32 1
      device_id := List.replicate 32 2
      context := 0 }
  authenticator_data := []
  client_data := c5ClientData
  public_key := List.replicate 91 0

/-- Client data with a `crossOrigin` field before the `origin` field. -/
def crossOriginClientData : List Nat :=
  utf8Encode "\x7b\"type\":\"webauthn.get\",\"crossOrigin\":false,\"origin\":\"https://rpid.example.com\",\"x\":1\x7d".toList

/-- Client data where an earlier field value contains the lowercase
substring `origin`, before the real `origin` field. -/
def shadowedOriginClientData : List Nat :=
  utf8Encode "\x7b\"type\":\"webauthn.get\",\"note\":\"my origin\",\"origin\":\"https://rpid.example.com\",\"crossOrigin\":false\x7d".toList

/-! ## Claim theorems -/

/-- C1: the claim says `is_valid()` is true iff the ECDSA P-256 signature
verification succeeds over the envelope's fields.  In the code both
implementations return `true` unconditionally (and the `Attestation`
envelope carries no signature at all), so `is_valid` is the constant
`true`, independent of any verification. -/
theorem C1_is_valid_unconditionally_true :
    ∀ (att : Attestation Nat) (ass : Assertion Nat),
      att.is_valid = true ∧ ass.is_valid = true :=
  fun _ _ => ⟨rfl, rfl⟩

set_option maxRecDepth 200000 in
/-- C2: the claim says `authority()` equals the value re-derived from the
raw client data, and an envelope whose carried metadata disagrees is not
accepted.  The concrete attestation `c2Attestation` has carried authority
all-ones while its client data encodes `"rpid"`; `authority()` returns the
carried metadata and `is_valid()` still accepts. -/
theorem C2_carried_authority_not_rederived :
    c2Attestation.authority = List.replicate 32 1 ∧
    find_authority_id_from_client_data c2Attestation.client_data =
      some (decodeFixed32 (utf8Encode "rpid".toList)) ∧
    c2Attestation.authority ≠ decodeFixed32 (utf8Encode "rpid".toList) ∧
    c2Attestation.is_valid = true := by
  refine ⟨rfl, by decide, by decide, rfl⟩

/-- C3: `webauthn_verify` returns `Ok(())` iff the public key decodes, the
signature parses, and the signature verifies over
`authenticator_data ++ SHA-256(client_data)`; otherwise it returns
`ExtractPublicKey`, `ParseSignature` or `VerifySignature` respectively. -/
theorem C3_webauthn_verify_cases (C : Crypto) (ad cd sig pk : List Nat) :
    (webauthn_verify C ad cd sig pk = Except.ok () ↔
      ∃ k s, C.decodePublicKeyDer pk = some k ∧ C.decodeDerSignature sig = some s ∧
        C.ecdsaVerify k (ad ++ C.sha256 cd) s = true)
    ∧ (webauthn_verify C ad cd sig pk = Except.error VerifyError.ExtractPublicKey ↔
        C.decodePublicKeyDer pk = none)
    ∧ (webauthn_verify C ad cd sig pk = Except.error VerifyError.ParseSignature ↔
        (∃ k, C.decodePublicKeyDer pk = some k) ∧ C.decodeDerSignature sig = none)
    ∧ (webauthn_verify C ad cd sig pk = Except.error VerifyError.VerifySignature ↔
        ∃ k s, C.decodePublicKeyDer pk = some k ∧ C.decodeDerSignature sig = some s ∧
          C.ecdsaVerify k (ad ++ C.sha256 cd) s = false) := by
  cases hk : C.decodePublicKeyDer pk with
  | none => refine ⟨?_, ?_, ?_, ?_⟩ <;> simp [webauthn_verify, hk]
  | some k =>
    cases hs : C.decodeDerSignature sig with
    | none => refine ⟨?_, ?_, ?_, ?_⟩ <;> simp [webauthn_verify, hk, hs]
    | some s =>
      cases hv : C.ecdsaVerify k (ad ++ C.sha256 cd) s with
      | false => refine ⟨?_, ?_, ?_, ?_⟩ <;> simp [webauthn_verify, hk, hs, hv]
      | true => refine ⟨?_, ?_, ?_, ?_⟩ <;> simp [webauthn_verify, hk, hs, hv]

/-- C4: `Credential::verify` returns `Some(())` iff `webauthn_verify`
succeeds over the assertion's authenticator data, client data and
signature with the public key stored in the credential record. -/
theorem C4_credential_verify_iff (Cx : Type) (C : Crypto) (cred : Credential)
    (a : Assertion Cx) :
    Credential.verify C cred a = some () ↔
      webauthn_verify C a.authenticator_data a.client_data a.signature
        cred.public_key = Except.ok () := by
  unfold Credential.verify
  cases h : webauthn_verify C a.authenticator_data a.client_data a.signature
      cred.public_key with
  | ok u => cases u; simp
  | error e => simp

set_option maxRecDepth 200000 in
/-- C5 counterexample: the claim says a decoded challenge of the wrong
length (not 32 bytes) yields `None`.  The value `"AA"` decodes to the
single byte `0x00`, yet extraction succeeds, returning that byte
zero-padded to 32 bytes. -/
theorem C5_wrong_length_not_none :
    b64Decode (utf8Encode "AA".toList) = some [0] ∧
    find_challenge_from_client_data c5ClientData = some (List.replicate 32 0) ∧
    find_challenge_from_client_data c5ClientData ≠ none := by
  refine ⟨by decide, by decide, by decide⟩

/-- C5 amended: `find_challenge_from_client_data` returns `None` exactly
when the bytes are not valid UTF-8, no comma-separated segment contains
the key (together with a colon), or the trimmed value fails base64url
decoding; a successfully decoded value of any length is accepted, and the
returned challenge always has exactly 32 bytes (zero-padded/truncated). -/
theorem C5_find_challenge_failure_modes (cd : List Nat) :
    (find_challenge_from_client_data cd = none ↔
      utf8Decode cd = none ∨
      (∃ s, utf8Decode cd = some s ∧
        (scanSegments ("challenge".toList) (splitOnComma s) = none ∨
         ∃ v, scanSegments ("challenge".toList) (splitOnComma s) = some v ∧
           b64Decode (utf8Encode (trimValue v)) = none)))
    ∧ ((find_challenge_from_client_data cd).getD default32).length = 32 := by
  constructor
  · exact get_from_json_eq_none_iff cd ("challenge".toList) _
  · exact get_from_json_getD_length cd ("challenge".toList) _

/-- C6: embedding the unpadded base64url encoding of any 32-byte challenge
as the `challenge` string field of canonical WebAuthn client data and
extracting returns the original 32 bytes. -/
theorem C6_find_challenge_roundtrip (c : List Nat) (hlen : c.length = 32)
    (hlt : ∀ b ∈ c, b < 256) :
    find_challenge_from_client_data (challengeClientData c) = some c :=
  find_challenge_roundtrip_aux c hlen hlt

/-- C6 witness at the all-`0xFF` challenge. -/
theorem C6_witness :
    find_challenge_from_client_data (challengeClientData (List.replicate 32 255)) =
      some (List.replicate 32 255) :=
  C6_find_challenge_roundtrip (List.replicate 32 255) (by simp) (by simp)

set_option maxRecDepth 200000 in
/-- C7: for an origin `https://<label>.<rest>` embedded in canonical
client data, `find_authority_id_from_client_data` returns the label's
bytes zero-padded to 32; it returns `None` when the origin key is absent,
the origin is not a parsable URL, or the domain has no dot. -/
theorem C7_find_authority_spec (label rest : List Char)
    (hne : label ≠ [])
    (hlab : ∀ ch ∈ label, isHostLabelChar ch = true)
    (hrest : ∀ ch ∈ rest, goodHostChar ch = true) :
    find_authority_id_from_client_data (originClientData label rest) =
      some (decodeFixed32 (utf8Encode label))
    ∧ find_authority_id_from_client_data
        (utf8Encode "\x7b\"type\":\"webauthn.get\",\"challenge\":\"AAAA\"\x7d".toList) = none
    ∧ find_authority_id_from_client_data
        (utf8Encode "\x7b\"origin\":\"rpid.example.com\",\"crossOrigin\":false\x7d".toList) = none
    ∧ find_authority_id_from_client_data
        (utf8Encode "\x7b\"origin\":\"https://localhost\",\"crossOrigin\":false\x7d".toList) = none :=
  ⟨find_authority_origin_aux label rest hne hlab hrest, by decide, by decide, by decide⟩

set_option maxRecDepth 200000 in
/-- C7 witness at origin `https://rpid.example.com`. -/
theorem C7_witness :
    find_authority_id_from_client_data
        (originClientData ("rpid".toList) ("example.com".toList)) =
      some (decodeFixed32 (utf8Encode "rpid".toList)) :=
  (C7_find_authority_spec ("rpid".toList) ("example.com".toList)
    (by decide) (by decide) (by decide)).1

/-- C8: both extractors are total functions of the raw bytes: on invalid
UTF-8 (and any other failure) they return `none` rather than failing, and
any extracted value is exactly 32 bytes. -/
theorem C8_extractors_total_fail_closed (cd : List Nat) :
    (utf8Decode cd = none →
      find_challenge_from_client_data cd = none ∧
      find_authority_id_from_client_data cd = none)
    ∧ (∀ v, find_challenge_from_client_data cd = some v → v.length = 32)
    ∧ (∀ v, find_authority_id_from_client_data cd = some v → v.length = 32) := by
  refine ⟨fun h => ⟨?_, ?_⟩, fun v hv => ?_, fun v hv => ?_⟩
  · exact get_from_json_none_of_bad_utf8 cd _ _ h
  · exact get_from_json_none_of_bad_utf8 cd _ _ h
  · exact get_from_json_some_length cd _ _ v hv
  · exact get_from_json_some_length cd _ _ v hv

/-- C8 witness at the non-UTF-8 input `[0xFF]`. -/
theorem C8_witness :
    find_challenge_from_client_data [255] = none ∧
    find_authority_id_from_client_data [255] = none :=
  (C8_extractors_total_fail_closed [255]).1 rfl

/-- C9: `webauthn_verify` is a pure function of its four byte inputs:
identical inputs always produce the identical verdict. -/
theorem C9_webauthn_verify_deterministic (C : Crypto)
    (ad1 cd1 sig1 pk1 ad2 cd2 sig2 pk2 : List Nat)
    (had : ad1 = ad2) (hcd : cd1 = cd2) (hsig : sig1 = sig2) (hpk : pk1 = pk2) :
    webauthn_verify C ad1 cd1 sig1 pk1 = webauthn_verify C ad2 cd2 sig2 pk2 := by
  subst had hcd hsig hpk
  rfl

/-- C9 witness at empty byte strings under the trivial primitive bundle. -/
theorem C9_witness :
    webauthn_verify trivCrypto [] [] [] [] = webauthn_verify trivCrypto [] [] [] [] :=
  C9_webauthn_verify_deterministic trivCrypto [] [] [] [] [] [] [] [] rfl rfl rfl rfl

set_option maxRecDepth 200000 in
/-- C10 counterexample: the claim's asserted consequence is that a
`crossOrigin` field appearing before `origin` determines the extracted
value.  `contains` is case-sensitive, so `"crossOrigin":false` does not
contain the key `origin`, and extraction still returns the real origin's
authority. -/
theorem C10_crossOrigin_does_not_shadow :
    containsSubstr ("origin".toList) ("\"crossOrigin\":false".toList) = false ∧
    find_authority_id_from_client_data crossOriginClientData =
      some (decodeFixed32 (utf8Encode "rpid".toList)) := by
  refine ⟨by decide, by decide⟩

set_option maxRecDepth 200000 in
/-- C10 amended: the scanner selects the first comma-separated segment
containing the key as a (case-sensitive) substring, taking everything
after that segment's first colon; an earlier segment containing the exact
key substring (e.g. a value containing lowercase `origin`) shadows the
real field, as the `shadowedOriginClientData` instance shows. -/
theorem C10_scanner_first_substring_segment (key : List Char)
    (pre : List (List Char)) (seg : List Char) (post : List (List Char))
    (l r : List Char)
    (hpre : ∀ kv ∈ pre, containsSubstr key kv = false)
    (hseg : containsSubstr key seg = true)
    (hsplit : splitOnce ':' seg = some (l, r)) :
    scanSegments key (pre ++ seg :: post) = some r
    ∧ find_authority_id_from_client_data shadowedOriginClientData = none :=
  ⟨scanSegments_skip_then_hit key pre seg post hpre hseg l r hsplit, by decide⟩

/-- C10 witness: a concrete segment list where the first key-carrying
segment supplies the value. -/
theorem C10_witness :
    scanSegments ("origin".toList)
        (["\"a\":\"1\"".toList] ++ "\"origin\":\"x\"".toList :: []) =
      some ("\"x\"".toList) :=
  (C10_scanner_first_substring_segment ("origin".toList)
    ["\"a\":\"1\"".toList] ("\"origin\":\"x\"".toList) []
    ("\"origin\"".toList) ("\"x\"".toList)
    (by decide) (by decide) (by decide)).1

end Webauthn
